import Mathlib

/-
  Verification development for the Voxel-wise Time-Series Feature Engine
  of the fMRI-Processing-Pipeline-Epilepsy repository.

  Shallow embedding conventions:
  - numpy float arrays of data values are modelled as lists of rationals;
  - numpy NaN is modelled by an explicit constructor of the value type;
  - a Python exception escaping a function is modelled by Except;
  - external library calls (nolds estimators, scipy.signal.welch,
    scipy windows, filtfilt, np.fft.rfft magnitudes) are parameters of the
    embedded functions, since the repository calls them as black boxes;
  - printed warnings are modelled as Boolean warning flags in the result.
-/

/-! ### Elementary series statistics (np.mean, np.std, np.var) -/

/-- Population mean of a series, as in np.mean. -/
def tsMean (ts : List ℚ) : ℚ := ts.sum / ts.length

/-- Population variance of a series, as in np.var (and the square of np.std). -/
def tsVar (ts : List ℚ) : ℚ :=
  ((ts.map fun v => (v - tsMean ts) ^ 2).sum) / ts.length

/-- The variance epsilon of the voxel loops: the scripts test np.std(ts) <= 1e-6. -/
def varEps : ℚ := 1 / 1000000

/-- The comparison np.std(ts) <= eps for a nonnegative eps.  Since the standard
deviation is the square root of the variance and both sides are nonnegative,
this is exactly the decidable comparison var(ts) <= eps^2. -/
def stdLeB (ts : List ℚ) (eps : ℚ) : Bool := decide (tsVar ts ≤ eps ^ 2)

/-- The comparison np.std(ts) > 0, i.e. var(ts) > 0. -/
def stdPosB (ts : List ℚ) : Bool := decide (0 < tsVar ts)

/-! ### Nyquist clamping of the bandpass upper cutoff

Two variants occur in the source.
alff_test.py (lines 71-80) computes normalized_high = bandpass_high / nyquist
and, when normalized_high > 1.0, prints a warning and sets
normalized_high = 1.0 and bandpass_high = nyquist.
docker/build_context/scripts/hurst_test.py (lines 32-48) compares
high_freq > nyquist directly and, when it holds, prints a warning and sets
high_freq = nyquist.  Neither raises an error. -/

/-- Embeds the Nyquist validation of compute_alff in alff_test.py:
returns (effective bandpass_high, normalized_high, warning printed). -/
def clampHighAlff (bandpassHigh nyquist : ℚ) : ℚ × ℚ × Bool :=
  let normalizedHigh := bandpassHigh / nyquist
  if 1 < normalizedHigh then (nyquist, 1, true)
  else (bandpassHigh, normalizedHigh, false)

/-- Embeds the Nyquist check of compute_hurst in
docker/build_context/scripts/hurst_test.py: returns
(effective high_freq, warning printed). -/
def clampHighHurst (highFreq nyquist : ℚ) : ℚ × Bool :=
  if nyquist < highFreq then (nyquist, true) else (highFreq, false)

/-! ### fALFF band setup (alff_test.py lines 85-109) -/

/-- Outcome of the fALFF band validation in compute_alff (alff_test.py):
adjLow is falff_low after the overlap adjustment, warnedOverlap records the
overlap warning print, enabled records whether compute_falff survived the
validation, and band holds the normalized (low, high) cutoffs passed to
signal.butter when it did. -/
structure FalffSetupOut where
  adjLow : ℚ
  warnedOverlap : Bool
  enabled : Bool
  band : Option (ℚ × ℚ)
  deriving DecidableEq, Repr

/-- Embeds alff_test.py lines 89-92: the overlap adjustment of falff_low,
returning the adjusted bound and whether the overlap warning was printed. -/
def falffAdjLow (bandpassHigh falffLow : ℚ) : ℚ × Bool :=
  if falffLow ≤ bandpassHigh then (bandpassHigh + 1 / 1000, true)
  else (falffLow, false)

/-- Embeds alff_test.py lines 85-108: the fALFF high-band validation.
bandpassHigh is the (already Nyquist-clamped) ALFF upper bound. -/
def falffSetup (bandpassHigh nyquist falffLow falffHigh : ℚ) : FalffSetupOut :=
  let la := falffAdjLow bandpassHigh falffLow
  if nyquist ≤ la.1 then
    ⟨la.1, la.2, false, none⟩
  else if min (falffHigh / nyquist) (99 / 100) ≤ la.1 / nyquist then
    ⟨la.1, la.2, false, none⟩
  else
    ⟨la.1, la.2, true, some (la.1 / nyquist, min (falffHigh / nyquist) (99 / 100))⟩

/-- The adjusted lower bound and the warning flag pass through the rest of
the fALFF validation unchanged. -/
theorem falffSetup_low_warn (bandpassHigh nyquist falffLow falffHigh : ℚ) :
    (falffSetup bandpassHigh nyquist falffLow falffHigh).adjLow
        = (falffAdjLow bandpassHigh falffLow).1 ∧
    (falffSetup bandpassHigh nyquist falffLow falffHigh).warnedOverlap
        = (falffAdjLow bandpassHigh falffLow).2 := by
  simp only [falffSetup]
  split_ifs <;> exact ⟨rfl, rfl⟩

/-! ### Claim theorems: C1 and C7 -/

/-- Claim C1: for every ALFF call with fALFF enabled, if the configured
high-band lower bound does not exceed the (clamped) ALFF upper bound, the
effective fALFF lower bound is the ALFF upper bound plus 0.001 Hz and a
warning is signaled; and whenever the band is still invalid after adjustment
and Nyquist clamping (normalized low >= normalized high), fALFF computation
is disabled for the call, producing no fALFF band, rather than raising
(falffSetup is total and returns a disabled outcome). -/
theorem falff_band_adjustment (bandpassHigh nyquist falffLow falffHigh : ℚ) :
    (falffLow ≤ bandpassHigh →
      (falffSetup bandpassHigh nyquist falffLow falffHigh).adjLow
          = bandpassHigh + 1 / 1000 ∧
      (falffSetup bandpassHigh nyquist falffLow falffHigh).warnedOverlap = true) ∧
    (0 < nyquist →
      min (falffHigh / nyquist) (99 / 100)
          ≤ (falffSetup bandpassHigh nyquist falffLow falffHigh).adjLow / nyquist →
      (falffSetup bandpassHigh nyquist falffLow falffHigh).enabled = false ∧
      (falffSetup bandpassHigh nyquist falffLow falffHigh).band = none) := by
  constructor
  · intro hov
    rw [(falffSetup_low_warn bandpassHigh nyquist falffLow falffHigh).1,
        (falffSetup_low_warn bandpassHigh nyquist falffLow falffHigh).2]
    simp [falffAdjLow, hov]
  · intro _ hinv
    rw [(falffSetup_low_warn bandpassHigh nyquist falffLow falffHigh).1] at hinv
    by_cases h1 : nyquist ≤ (falffAdjLow bandpassHigh falffLow).1
    · simp only [falffSetup, if_pos h1]
      simp
    · simp only [falffSetup, if_neg h1, if_pos hinv]
      simp


/-- Witness for falff_band_adjustment.  First input: alff band upper bound
0.08, nyquist 5 (tr = 0.1 s), requested fALFF band (0.02, 0.25): the overlap
adjustment fires and yields 0.081 with a warning.  Second input: nyquist
0.05 (very long tr): the adjusted band is invalid and fALFF is disabled. -/
theorem falff_band_adjustment_witness :
    ((falffSetup (2/25) 5 (1/50) (1/4)).adjLow = 2/25 + 1/1000 ∧
      (falffSetup (2/25) 5 (1/50) (1/4)).warnedOverlap = true) ∧
    ((falffSetup (2/25) (1/20) (1/50) (1/4)).enabled = false ∧
      (falffSetup (2/25) (1/20) (1/50) (1/4)).band = none) :=
  ⟨(falff_band_adjustment (2/25) 5 (1/50) (1/4)).1 (by norm_num),
   (falff_band_adjustment (2/25) (1/20) (1/50) (1/4)).2 (by norm_num)
      (by norm_num [falffSetup, falffAdjLow])⟩

/-- Claim C7: for every bandpass request whose upper cutoff exceeds the
Nyquist frequency, the filter is built with the upper cutoff clamped to
exactly the Nyquist frequency and a warning is signaled, in both source
variants (alff_test.py clamps via the normalized cutoff, the hurst_test
variant clamps the cutoff directly); no error is raised for this condition,
as both embedded validations are total functions. -/
theorem bandpass_nyquist_clamp (highHz nyquist : ℚ)
    (hpos : 0 < nyquist) (hgt : nyquist < highHz) :
    clampHighAlff highHz nyquist = (nyquist, 1, true) ∧
    clampHighHurst highHz nyquist = (nyquist, true) := by
  constructor
  · unfold clampHighAlff
    have h1 : 1 < highHz / nyquist := (one_lt_div hpos).mpr hgt
    simp [h1]
  · unfold clampHighHurst
    simp [hgt]

/-- Witness for bandpass_nyquist_clamp: a cutoff of 3 Hz with a Nyquist
frequency of 1 Hz is clamped to 1 Hz with a warning in both variants. -/
theorem bandpass_nyquist_clamp_witness :
    clampHighAlff 3 1 = (1, 1, true) ∧ clampHighHurst 3 1 = (1, true) :=
  bandpass_nyquist_clamp 3 1 (by norm_num) (by norm_num)

/-! ### The masked volume pass

hurst.py (lines 58-105) and docker/build_context/scripts/fractal.py
(lines 149-196) share the same voxel loop: check the mask/volume shapes,
then visit every voxel in lexicographic x, y, z order; for masked voxels,
skip (leaving the zero-initialized output cell) when np.std(ts) <= 1e-6,
otherwise call the per-voxel estimator inside try/except, writing NaN and
printing a diagnostic when it raises.  The estimator (nolds.dfa,
nolds.hurst_rs, compute_higuchi_fd, compute_psd_fd) is a parameter here;
a raised Python exception is the Except.error case. -/

abbrev Idx := ℕ × ℕ × ℕ

/-- A cell value of a feature map: a float that is either NaN or a number. -/
inductive FVal
  | nan
  | val (q : ℚ)
  deriving DecidableEq, Repr

/-- The 4-D input volume: spatial shape, temporal length, and the time
series at each spatial index. -/
structure Vol4 where
  nx : ℕ
  ny : ℕ
  nz : ℕ
  nt : ℕ
  data : ℕ → ℕ → ℕ → List ℚ

/-- The 3-D boolean mask with its own shape. -/
structure Mask3 where
  mx : ℕ
  my : ℕ
  mz : ℕ
  val : ℕ → ℕ → ℕ → Bool

/-- A per-voxel estimator; Except.error models a raised Python exception. -/
abbrev VoxEst := List ℚ → Except Unit FVal

/-- The shape agreement check mask.shape[:3] == data.shape[:3]. -/
def shapeOkB (v : Vol4) (m : Mask3) : Bool :=
  decide (m.mx = v.nx) && decide (m.my = v.ny) && decide (m.mz = v.nz)

/-- The structural error of the pass: hurst.py line 60 and fractal.py
line 151 raise ValueError on mask/volume shape disagreement. -/
inductive VolErr
  | dimensionMismatch
  deriving DecidableEq, Repr

/-- State of the voxel loop: the output map (initialized to zeros by
np.zeros), the indices at which the estimator was invoked, and the indices
at which a diagnostic was printed because the estimator raised. -/
structure PassState where
  out : Idx → FVal
  calls : List Idx
  diags : List Idx

def initPass : PassState := ⟨fun _ => .val 0, [], []⟩

/-- The lexicographic x, y, z visiting order of the nested loops. -/
def lexIndices (nx ny nz : ℕ) : List Idx :=
  (List.range nx).flatMap fun x =>
    (List.range ny).flatMap fun y =>
      (List.range nz).map fun z => (x, y, z)

def tsAt (v : Vol4) (p : Idx) : List ℚ := v.data p.1 p.2.1 p.2.2

def maskAt (m : Mask3) (p : Idx) : Bool := m.val p.1 p.2.1 p.2.2

/-- A voxel reaches the estimator call exactly when it is masked and its
series passes the variance screen. -/
def procB (v : Vol4) (m : Mask3) (p : Idx) : Bool :=
  maskAt m p && !(stdLeB (tsAt v p) varEps)

/-- The value written by the try/except around the estimator call:
the estimator result, or NaN when it raised. -/
def estCell (e : VoxEst) (ts : List ℚ) : FVal :=
  match e ts with
  | .ok w => w
  | .error _ => .nan

/-- Whether the estimator raises on this series. -/
def estFails (e : VoxEst) (ts : List ℚ) : Bool :=
  match e ts with
  | .ok _ => false
  | .error _ => true

/-- In-place single-cell write of the output array. -/
def updCell (f : Idx → FVal) (p : Idx) (w : FVal) : Idx → FVal :=
  fun q => if q = p then w else f q

/-- One iteration of the voxel loop body (hurst.py lines 83-97). -/
def stepVoxel (e : VoxEst) (v : Vol4) (m : Mask3) (s : PassState) (p : Idx) :
    PassState :=
  if maskAt m p then
    if stdLeB (tsAt v p) varEps then s
    else
      { out := updCell s.out p (estCell e (tsAt v p)),
        calls := s.calls ++ [p],
        diags := s.diags ++ (if estFails e (tsAt v p) then [p] else []) }
  else s

/-- The whole voxel loop, after the shape check has passed. -/
def passRun (e : VoxEst) (v : Vol4) (m : Mask3) : PassState :=
  (lexIndices v.nx v.ny v.nz).foldl (stepVoxel e v m) initPass

/-- The full pass: shape check first (raising DimensionMismatch before the
loop starts), then the voxel loop. -/
def runPass (e : VoxEst) (v : Vol4) (m : Mask3) : Except VolErr PassState :=
  if shapeOkB v m then .ok (passRun e v m) else .error .dimensionMismatch

/-- The intended value of one output cell, as a function of that voxel's
own data alone. -/
def cellSpec (e : VoxEst) (v : Vol4) (m : Mask3) (p : Idx) : FVal :=
  if procB v m p then estCell e (tsAt v p) else .val 0

/-! ### Loop-body lemmas -/

theorem stepVoxel_not_proc (e : VoxEst) (v : Vol4) (m : Mask3)
    (s : PassState) (q : Idx) (h : procB v m q = false) :
    stepVoxel e v m s q = s := by
  unfold stepVoxel
  unfold procB at h
  rcases hm : maskAt m q with _ | _
  · simp [hm]
  · rcases hv : stdLeB (tsAt v q) varEps with _ | _
    · rw [hm, hv] at h
      simp at h
    · simp [hm, hv]

theorem stepVoxel_out_ne (e : VoxEst) (v : Vol4) (m : Mask3)
    (s : PassState) (p q : Idx) (h : p ≠ q) :
    (stepVoxel e v m s q).out p = s.out p := by
  unfold stepVoxel
  rcases hm : maskAt m q with _ | _
  · simp
  · rcases hv : stdLeB (tsAt v q) varEps with _ | _
    · simp [updCell, h]
    · simp

theorem stepVoxel_out_proc (e : VoxEst) (v : Vol4) (m : Mask3)
    (s : PassState) (q : Idx) (h : procB v m q = true) :
    (stepVoxel e v m s q).out q = estCell e (tsAt v q) := by
  unfold procB at h
  rw [Bool.and_eq_true, Bool.not_eq_true'] at h
  unfold stepVoxel
  simp [h.1, h.2, updCell]

theorem stepVoxel_calls (e : VoxEst) (v : Vol4) (m : Mask3)
    (s : PassState) (q : Idx) :
    (stepVoxel e v m s q).calls
      = s.calls ++ (if procB v m q then [q] else []) := by
  unfold stepVoxel procB
  rcases hm : maskAt m q with _ | _
  · simp
  · rcases hv : stdLeB (tsAt v q) varEps with _ | _
    · simp [hv]
    · simp [hv]

theorem stepVoxel_diags (e : VoxEst) (v : Vol4) (m : Mask3)
    (s : PassState) (q : Idx) :
    (stepVoxel e v m s q).diags
      = s.diags
          ++ (if procB v m q && estFails e (tsAt v q) then [q] else []) := by
  unfold stepVoxel procB
  rcases hm : maskAt m q with _ | _
  · simp
  · rcases hv : stdLeB (tsAt v q) varEps with _ | _
    · rcases hf : estFails e (tsAt v q) with _ | _ <;> simp [hv, hf]
    · simp [hv]

/-! ### Whole-loop characterizations -/

/-- The output cell at p after folding the loop over any index list:
it is the per-voxel value when p was visited and reached the estimator
stage, and the starting value otherwise.  In particular every voxel's
cell depends only on that voxel's own series. -/
theorem foldl_out (e : VoxEst) (v : Vol4) (m : Mask3) (l : List Idx)
    (s : PassState) (p : Idx) :
    ((l.foldl (stepVoxel e v m) s).out) p
      = if p ∈ l ∧ procB v m p = true then estCell e (tsAt v p)
        else s.out p := by
  induction l generalizing s with
  | nil => simp
  | cons q t ih =>
    rw [List.foldl_cons, ih]
    by_cases hproc : procB v m p = true
    · by_cases hpt : p ∈ t
      · simp [hpt, hproc]
      · by_cases hpq : p = q
        · subst hpq
          rw [stepVoxel_out_proc e v m s p hproc]
          simp [hproc, hpt]
        · have h2 : ¬(p ∈ t ∧ procB v m p = true) := fun hc => hpt hc.1
          have h3 : ¬(p ∈ q :: t ∧ procB v m p = true) := by
            intro hc
            rcases List.mem_cons.mp hc.1 with h | h
            · exact hpq h
            · exact hpt h
          rw [if_neg h2, if_neg h3]
          exact stepVoxel_out_ne e v m s p q hpq
    · have h2 : ¬(p ∈ t ∧ procB v m p = true) := fun hc => hproc hc.2
      have h3 : ¬(p ∈ q :: t ∧ procB v m p = true) := fun hc => hproc hc.2
      rw [if_neg h2, if_neg h3]
      by_cases hpq : p = q
      · subst hpq
        rw [stepVoxel_not_proc e v m s p (by simpa using hproc)]
      · exact stepVoxel_out_ne e v m s p q hpq

/-- Membership in the invocation log after folding the loop over any index
list: the estimator was invoked at p exactly when it already had been, or p
was visited, masked, and passed the variance screen. -/
theorem foldl_calls (e : VoxEst) (v : Vol4) (m : Mask3) (l : List Idx)
    (s : PassState) (p : Idx) :
    p ∈ (l.foldl (stepVoxel e v m) s).calls
      ↔ p ∈ s.calls ∨ (p ∈ l ∧ procB v m p = true) := by
  induction l generalizing s with
  | nil => simp
  | cons q t ih =>
    rw [List.foldl_cons, ih, stepVoxel_calls]
    by_cases hq : procB v m q = true
    · by_cases hpq : p = q
      · subst hpq
        simp [hq]
      · simp only [hq, if_true, List.mem_append, List.mem_cons,
          List.mem_singleton, hpq] <;> tauto
    · have hq0 : procB v m q = false := by simpa using hq
      by_cases hpq : p = q
      · subst hpq
        simp [hq0]
      · simp only [hq0, List.mem_append, List.mem_cons, hpq,
          Bool.false_eq_true, if_false, List.not_mem_nil, or_false] <;> tauto

/-- Membership in the diagnostics log after folding the loop: a diagnostic
was recorded at p exactly when one already had been, or p was visited,
reached the estimator, and the estimator raised there. -/
theorem foldl_diags (e : VoxEst) (v : Vol4) (m : Mask3) (l : List Idx)
    (s : PassState) (p : Idx) :
    p ∈ (l.foldl (stepVoxel e v m) s).diags
      ↔ p ∈ s.diags
          ∨ (p ∈ l ∧ procB v m p = true ∧ estFails e (tsAt v p) = true) := by
  induction l generalizing s with
  | nil => simp
  | cons q t ih =>
    rw [List.foldl_cons, ih, stepVoxel_diags]
    by_cases hq1 : procB v m q = true
    · by_cases hq2 : estFails e (tsAt v q) = true
      · by_cases hpq : p = q
        · subst hpq
          simp [hq1, hq2]
        · simp only [hq1, hq2, Bool.and_self, if_true, List.mem_append,
            List.mem_cons, List.mem_singleton, hpq] <;> tauto
      · have hq2f : estFails e (tsAt v q) = false := by simpa using hq2
        by_cases hpq : p = q
        · subst hpq
          simp [hq1, hq2f]
        · simp only [hq1, hq2f, Bool.and_false, Bool.false_eq_true,
            if_false, List.append_nil, List.mem_cons, hpq, false_or] <;> tauto
    · have hq1f : procB v m q = false := by simpa using hq1
      by_cases hpq : p = q
      · subst hpq
        simp [hq1f]
      · simp only [hq1f, Bool.false_and, Bool.false_eq_true, if_false,
          List.append_nil, List.mem_cons, hpq, false_or] <;> tauto

/-- If the estimator raises on a series, the try/except writes NaN. -/
theorem estFails_cell (e : VoxEst) (ts : List ℚ)
    (h : estFails e ts = true) : estCell e ts = FVal.nan := by
  unfold estCell
  rcases hcase : e ts with u | w
  · rfl
  · exfalso
    simp [estFails, hcase] at h

/-! ### The variance-screen skip and its variant

hurst.py line 88, fractal.py line 179 and alff_test.py line 153 all skip a
masked voxel with np.std(ts) <= 1e-6, leaving its zero cell and never
calling the estimator.  main() of docker/build_context/scripts/hurst_test.py
(lines 135-150) instead guards the call with np.std(ts) > 0, so a voxel
with tiny positive variance is still handed to the estimator there; its
compute_hurst returns a float (0.0 on an internal exception), so that
estimator is a total function into the rationals. -/

/-- One iteration of the hurst_test.py main() loop body over the
mask-filtered index list. -/
def bcStep (e : List ℚ → ℚ) (v : Vol4) (s : (Idx → ℚ) × List Idx)
    (p : Idx) : (Idx → ℚ) × List Idx :=
  if stdPosB (tsAt v p) then
    (fun q => if q = p then e (tsAt v p) else s.1 q, s.2 ++ [p])
  else s

/-- The hurst_test.py main() voxel loop: iterate np.argwhere(mask) (the
lexicographically ordered masked indices) over the zero-initialized map,
recording where compute_hurst was invoked. -/
def bcRun (e : List ℚ → ℚ) (v : Vol4) (m : Mask3) :
    (Idx → ℚ) × List Idx :=
  ((lexIndices v.nx v.ny v.nz).filter (maskAt m)).foldl (bcStep e v)
    (fun _ => 0, [])

/-- A 1x1x1 volume whose only series has tiny but positive variance:
its standard deviation is at most 1e-6 yet strictly positive. -/
def cVolTiny : Vol4 := ⟨1, 1, 1, 2, fun _ _ _ => [0, 1 / 1000000000]⟩

def cMaskOne : Mask3 := ⟨1, 1, 1, fun _ _ _ => true⟩

def cEstOne : List ℚ → ℚ := fun _ => 1

/-- Counterexample to claim C2 as stated: in the voxel loop of main() in
docker/build_context/scripts/hurst_test.py (cited by the claim), a masked
voxel whose series standard deviation is positive but at most 1e-6 is NOT
skipped: the estimator is invoked on it and its output cell receives the
estimator value rather than staying 0. -/
theorem lowvar_skip_counterexample :
    maskAt cMaskOne (0, 0, 0) = true ∧
    stdLeB (tsAt cVolTiny (0, 0, 0)) varEps = true ∧
    stdPosB (tsAt cVolTiny (0, 0, 0)) = true ∧
    (bcRun cEstOne cVolTiny cMaskOne).1 (0, 0, 0) = 1 ∧
    (0, 0, 0) ∈ (bcRun cEstOne cVolTiny cMaskOne).2 := by
  have hstd : stdPosB (tsAt cVolTiny (0, 0, 0)) = true := by
    norm_num [stdPosB, tsAt, cVolTiny, tsVar, tsMean]
  have hfilter : (lexIndices 1 1 1).filter (maskAt cMaskOne) = [(0, 0, 0)] := by
    decide
  refine ⟨rfl, ?_, hstd, ?_, ?_⟩
  · norm_num [stdLeB, tsAt, cVolTiny, tsVar, tsMean, varEps]
  · show ((((lexIndices 1 1 1).filter (maskAt cMaskOne)).foldl
        (bcStep cEstOne cVolTiny) (fun _ => 0, [])).1) (0, 0, 0) = 1
    rw [hfilter]
    simp only [List.foldl_cons, List.foldl_nil, bcStep, hstd]
    simp [cEstOne]
  · show (0, 0, 0) ∈ (((lexIndices 1 1 1).filter (maskAt cMaskOne)).foldl
        (bcStep cEstOne cVolTiny) (fun _ => 0, [])).2
    rw [hfilter]
    simp only [List.foldl_cons, List.foldl_nil, bcStep, hstd]
    simp

/-- Claim C2, amended: in the loops that use the 1e-6 variance screen
(hurst.py, fractal.py, alff_test.py), every masked voxel whose series
standard deviation is at or below 1e-6 is skipped: its output cell stays
exactly 0 and the estimator is never invoked on it.  (The main() loop of
docker/build_context/scripts/hurst_test.py instead skips only zero-variance
voxels; see the counterexample.) -/
theorem lowvar_voxel_skipped (e : VoxEst) (v : Vol4) (m : Mask3) (p : Idx)
    (hs : shapeOkB v m = true) (hm : maskAt m p = true)
    (hstd : stdLeB (tsAt v p) varEps = true) :
    runPass e v m = .ok (passRun e v m) ∧
    (passRun e v m).out p = FVal.val 0 ∧
    p ∉ (passRun e v m).calls := by
  have hproc : procB v m p = false := by
    unfold procB
    simp [hm, hstd]
  refine ⟨by simp [runPass, hs], ?_, ?_⟩
  · unfold passRun
    rw [foldl_out]
    simp [hproc, initPass]
  · unfold passRun
    intro hc
    rcases (foldl_calls e v m _ initPass p).mp hc with h | ⟨_, hp⟩
    · simp [initPass] at h
    · rw [hproc] at hp
      exact Bool.false_ne_true hp

/-- Witness for lowvar_voxel_skipped: a 1x1x1 volume with the tiny-variance
series; the epsilon-screened loop leaves the cell at 0 and never calls the
estimator. -/
theorem lowvar_voxel_skipped_witness :
    runPass (fun _ => .ok (FVal.val 7)) cVolTiny cMaskOne
        = .ok (passRun (fun _ => .ok (FVal.val 7)) cVolTiny cMaskOne) ∧
    (passRun (fun _ => .ok (FVal.val 7)) cVolTiny cMaskOne).out (0, 0, 0)
        = FVal.val 0 ∧
    (0, 0, 0) ∉ (passRun (fun _ => .ok (FVal.val 7)) cVolTiny cMaskOne).calls :=
  lowvar_voxel_skipped _ cVolTiny cMaskOne (0, 0, 0) (by decide) rfl
    (by norm_num [stdLeB, tsAt, cVolTiny, tsVar, tsMean, varEps])

/-- Claim C6: whenever the mask and volume spatial shapes disagree, the
pass fails with DimensionMismatch before the voxel loop starts: whatever
the estimator is, the result is the error and no output map is returned. -/
theorem shape_mismatch_fails (e : VoxEst) (v : Vol4) (m : Mask3)
    (h : shapeOkB v m = false) :
    runPass e v m = .error .dimensionMismatch := by
  simp [runPass, h]

def cMaskBad : Mask3 := ⟨2, 1, 1, fun _ _ _ => true⟩

/-- Witness for shape_mismatch_fails: a 1x1x1 volume against a 2x1x1 mask. -/
theorem shape_mismatch_fails_witness :
    runPass (fun _ => .ok (FVal.val 7)) cVolTiny cMaskBad
        = .error .dimensionMismatch :=
  shape_mismatch_fails _ cVolTiny cMaskBad (by decide)

/-- Claim C5: a masked, non-constant voxel where the estimator raises gets
NaN in its cell and a recorded diagnostic, the pass still completes
(returns ok with the full map), and every visited voxel's cell equals its
own per-voxel value, so one voxel's failure never affects the others or
aborts the pass. -/
theorem estimator_failure_contained (e : VoxEst) (v : Vol4) (m : Mask3)
    (p : Idx) (hs : shapeOkB v m = true)
    (hin : p ∈ lexIndices v.nx v.ny v.nz)
    (hm : maskAt m p = true)
    (hstd : stdLeB (tsAt v p) varEps = false)
    (hf : estFails e (tsAt v p) = true) :
    runPass e v m = .ok (passRun e v m) ∧
    (passRun e v m).out p = FVal.nan ∧
    p ∈ (passRun e v m).diags ∧
    ∀ q, q ∈ lexIndices v.nx v.ny v.nz →
      (passRun e v m).out q = cellSpec e v m q := by
  have hproc : procB v m p = true := by
    unfold procB
    simp [hm, hstd]
  refine ⟨by simp [runPass, hs], ?_, ?_, ?_⟩
  · unfold passRun
    rw [foldl_out]
    simp [hin, hproc, estFails_cell e (tsAt v p) hf]
  · unfold passRun
    exact (foldl_diags e v m _ initPass p).mpr (Or.inr ⟨hin, hproc, hf⟩)
  · intro q hq
    unfold passRun cellSpec
    rw [foldl_out]
    by_cases hpq : procB v m q = true
    · simp [hq, hpq]
    · simp [hpq, initPass]

def cVolStep : Vol4 := ⟨1, 1, 1, 2, fun _ _ _ => [0, 1]⟩

def cEstRaise : VoxEst := fun _ => .error ()

/-- Witness for estimator_failure_contained: a 1x1x1 volume with a
non-constant series and an estimator that always raises; the pass returns
ok, the cell is NaN, the diagnostic is recorded, and the cell matches its
per-voxel value. -/
theorem estimator_failure_contained_witness :
    runPass cEstRaise cVolStep cMaskOne
        = .ok (passRun cEstRaise cVolStep cMaskOne) ∧
    (passRun cEstRaise cVolStep cMaskOne).out (0, 0, 0) = FVal.nan ∧
    (0, 0, 0) ∈ (passRun cEstRaise cVolStep cMaskOne).diags ∧
    (passRun cEstRaise cVolStep cMaskOne).out (0, 0, 0)
        = cellSpec cEstRaise cVolStep cMaskOne (0, 0, 0) := by
  have h := estimator_failure_contained cEstRaise cVolStep cMaskOne (0, 0, 0)
    (by decide) (by decide) rfl
    (by norm_num [stdLeB, tsAt, cVolStep, tsVar, tsMean, varEps]) rfl
  exact ⟨h.1, h.2.1, h.2.2.1, h.2.2.2 (0, 0, 0) (by decide)⟩

/-! ### Post-pass normalization

hurst.py lines 107-117: the completed map is passed through np.nan_to_num
(NaN becomes 0), the validity screen selects cells with 0 < value < 2, a
z-scored companion map is built as np.zeros_like with only the screened
cells rewritten to (value - mean)/std.  fractal.py lines 198-209 are
identical with the screen 1 < value < 2.  numpy comparisons against NaN
are false, so NaN cells never pass a screen. -/

/-- np.nan_to_num on one cell: NaN becomes 0, numbers are unchanged. -/
def nanToNum : FVal → FVal
  | .nan => .val 0
  | .val q => .val q

/-- The numeric content of a non-NaN cell. -/
def valQ : FVal → ℚ
  | .nan => 0
  | .val q => q

/-- The validity screen lo < value < hi; false on NaN, as in numpy. -/
def validF (lo hi : ℚ) : FVal → Bool
  | .nan => false
  | .val q => decide (lo < q) && decide (q < hi)

/-- The raw map that is serialized: the pass output after np.nan_to_num. -/
def savedRaw (s : PassState) : Idx → FVal := fun p => nanToNum (s.out p)

/-- The screened cells of a map, in grid order. -/
def validCells (nx ny nz : ℕ) (raw : Idx → FVal) (lo hi : ℚ) : List Idx :=
  (lexIndices nx ny nz).filter fun p => validF lo hi (raw p)

/-- np.mean over the screened cells. -/
def validMean (nx ny nz : ℕ) (raw : Idx → FVal) (lo hi : ℚ) : ℚ :=
  ((validCells nx ny nz raw lo hi).map fun p => valQ (raw p)).sum
    / (validCells nx ny nz raw lo hi).length

/-- np.var over the screened cells. -/
def validVar (nx ny nz : ℕ) (raw : Idx → FVal) (lo hi : ℚ) : ℚ :=
  ((validCells nx ny nz raw lo hi).map
      fun p => (valQ (raw p) - validMean nx ny nz raw lo hi) ^ 2).sum
    / (validCells nx ny nz raw lo hi).length

/-- np.std over the screened cells. -/
noncomputable def validStd (nx ny nz : ℕ) (raw : Idx → FVal) (lo hi : ℚ) :
    ℝ :=
  Real.sqrt ((validVar nx ny nz raw lo hi : ℚ) : ℝ)

/-- The z-scored companion map: np.zeros_like, with exactly the screened
cells rewritten to (value - mean)/std. -/
noncomputable def zscoreMap (nx ny nz : ℕ) (raw : Idx → FVal) (lo hi : ℚ) :
    Idx → ℝ :=
  fun p =>
    if validF lo hi (raw p) = true then
      ((valQ (raw p) : ℝ) - (validMean nx ny nz raw lo hi : ℚ))
        / validStd nx ny nz raw lo hi
    else 0

/-- Claim C10: after a completed pass, the serialized raw map contains no
NaN cell (every failure sentinel has been replaced by 0 before saving), and
in the z-scored companion map every cell whose raw value fails the
script's validity screen (0 < v < 2 for Hurst, 1 < v < 2 for fractal
dimension, both instances of lo < v < hi) is exactly 0. -/
theorem raw_map_no_nan_zscore_zeroing (e : VoxEst) (v : Vol4) (m : Mask3)
    (lo hi : ℚ) (p : Idx) :
    savedRaw (passRun e v m) p ≠ FVal.nan ∧
    ((passRun e v m).out p = FVal.nan →
      savedRaw (passRun e v m) p = FVal.val 0) ∧
    (validF lo hi (savedRaw (passRun e v m) p) = false →
      zscoreMap v.nx v.ny v.nz (savedRaw (passRun e v m)) lo hi p = 0) := by
  refine ⟨?_, ?_, ?_⟩
  · unfold savedRaw
    rcases h : (passRun e v m).out p with _ | q <;> simp [nanToNum]
  · intro h
    unfold savedRaw
    rw [h]
    rfl
  · intro h
    unfold zscoreMap
    rw [h]
    simp

/-- Helper evaluation: on the 1x1x1 step volume, the only voxel reaches the
estimator and its cell is the try/except value. -/
theorem passRun_cVolStep_eval (e : VoxEst) :
    (passRun e cVolStep cMaskOne).out (0, 0, 0)
      = estCell e (tsAt cVolStep (0, 0, 0)) := by
  rw [passRun, foldl_out]
  have hproc : procB cVolStep cMaskOne (0, 0, 0) = true := by
    unfold procB
    norm_num [maskAt, cMaskOne, stdLeB, tsAt, cVolStep, tsVar, tsMean, varEps]
  have hmem : (0, 0, 0) ∈ lexIndices cVolStep.nx cVolStep.ny cVolStep.nz := by
    decide
  rw [if_pos ⟨hmem, hproc⟩]

/-- Witness for raw_map_no_nan_zscore_zeroing: the always-raising estimator
on the step volume yields a NaN cell; after nan_to_num it is 0, which fails
the Hurst screen 0 < v < 2, and the z-scored cell is exactly 0. -/
theorem raw_map_no_nan_zscore_zeroing_witness :
    savedRaw (passRun cEstRaise cVolStep cMaskOne) (0, 0, 0) ≠ FVal.nan ∧
    savedRaw (passRun cEstRaise cVolStep cMaskOne) (0, 0, 0) = FVal.val 0 ∧
    zscoreMap 1 1 1 (savedRaw (passRun cEstRaise cVolStep cMaskOne)) 0 2
        (0, 0, 0) = 0 := by
  have hout : (passRun cEstRaise cVolStep cMaskOne).out (0, 0, 0)
      = FVal.nan := by
    rw [passRun_cVolStep_eval]
    rfl
  have h := raw_map_no_nan_zscore_zeroing cEstRaise cVolStep cMaskOne 0 2
    (0, 0, 0)
  have hval : validF 0 2 (savedRaw (passRun cEstRaise cVolStep cMaskOne)
      (0, 0, 0)) = false := by
    unfold savedRaw
    rw [hout]
    norm_num [nanToNum, validF]
  exact ⟨h.1, h.2.1 hout, h.2.2 hval⟩

/-! ### ALFF band summation, two source variants

alff_test.py line 185-188 computes the magnitude spectrum of the
bandpass-filtered series and sums all bins except DC:
np.sum(np.abs(np.fft.rfft(ts_filtered))[1:]).
alff.py lines 59-85 never filters: it selects the real-FFT bins whose
np.fft.rfftfreq frequency lies in [bandpass_low, bandpass_high] and
computes np.sum(fft_vals[freq_idx]) / len(freq_idx).  The magnitude
spectrum itself is an external numpy computation and is a parameter. -/

/-- alff_test.py line 188: the non-DC sum of the magnitude spectrum. -/
def alffFiltered (mags : List ℚ) : ℚ := (mags.drop 1).sum

/-- np.fft.rfftfreq(n, d): the n/2+1 real-FFT bin frequencies i/(n*d). -/
def rfftfreqQ (n : ℕ) (d : ℚ) : List ℚ :=
  (List.range (n / 2 + 1)).map fun i => (i : ℚ) / ((n : ℚ) * d)

/-- alff.py line 64: the bin indices whose frequency is in [lo, hi]. -/
def bandIdx (n : ℕ) (d lo hi : ℚ) : List ℕ :=
  (List.range (n / 2 + 1)).filter fun i =>
    decide (lo ≤ (i : ℚ) / ((n : ℚ) * d))
      && decide ((i : ℚ) / ((n : ℚ) * d) ≤ hi)

/-- alff.py line 85: np.sum(fft_vals[freq_idx]) / len(freq_idx). -/
def alffUnfiltered (mags : List ℚ) (n : ℕ) (d lo hi : ℚ) : ℚ :=
  (((bandIdx n d lo hi).map fun i => mags.getD i 0).sum)
    / ((bandIdx n d lo hi).length : ℚ)

/-- Modelled from the claim (C3): on the unfiltered path the claim asserts
the ALFF value is the plain sum of the in-band magnitudes, with no further
scaling. -/
def claimBandSum (mags : List ℚ) (n : ℕ) (d lo hi : ℚ) : ℚ :=
  ((bandIdx n d lo hi).map fun i => mags.getD i 0).sum

/-- Counterexample to claim C3 as stated: for the magnitude spectrum
[0, 3, 5] of 4 samples at d = 1 s with band [1/4, 1/2], the band holds the
two bins with magnitudes 3 and 5; alff.py produces their mean 4, not the
claimed sum 8. -/
theorem alff_band_sum_counterexample :
    alffUnfiltered [0, 3, 5] 4 1 (1/4) (1/2) = 4 ∧
    claimBandSum [0, 3, 5] 4 1 (1/4) (1/2) = 8 ∧
    alffUnfiltered [0, 3, 5] 4 1 (1/4) (1/2)
      ≠ claimBandSum [0, 3, 5] 4 1 (1/4) (1/2) := by
  have hidx : bandIdx 4 1 (1/4) (1/2) = [1, 2] := by
    norm_num [bandIdx, List.range_succ]
  refine ⟨?_, ?_, ?_⟩ <;> norm_num [alffUnfiltered, claimBandSum, hidx]

/-- Dropping the first element is the same as keeping the elements whose
enumFrom index, starting at a positive base, is nonzero. -/
theorem enumFrom_filter_ne_zero (t : List ℚ) :
    ∀ k : ℕ, 1 ≤ k →
      ((t.enumFrom k).filter fun ia => ia.1 != 0).map Prod.snd = t := by
  induction t with
  | nil => intro k _; rfl
  | cons a t ih =>
    intro k hk
    rw [List.enumFrom_cons]
    have hne : (k != 0) = true := by
      simp
      omega
    simp only [List.filter_cons, hne, if_true, List.map_cons]
    rw [ih (k + 1) (by omega)]

/-- Claim C3, amended: on the bandpass-filtered path (alff_test.py) the
ALFF value is the sum of the magnitude bins at nonzero index, i.e. all
positive-frequency bins excluding DC, exactly as the claim states; on the
unfiltered path (alff.py) the value is the in-band sum DIVIDED by the
number of in-band bins (their mean), not the plain sum; and the DC bin is
excluded from the band whenever the band's lower bound is positive. -/
theorem alff_band_amended (mags : List ℚ) (n : ℕ) (d lo hi : ℚ) :
    (alffFiltered mags
        = ((mags.enum.filter fun ia => ia.1 != 0).map Prod.snd).sum) ∧
    (alffUnfiltered mags n d lo hi
        = claimBandSum mags n d lo hi / ((bandIdx n d lo hi).length : ℚ)) ∧
    (0 < lo → ¬ 0 ∈ bandIdx n d lo hi) := by
  refine ⟨?_, rfl, ?_⟩
  · cases mags with
    | nil => rfl
    | cons a t =>
      rw [List.enum_cons]
      simp only [List.filter_cons]
      norm_num
      rw [enumFrom_filter_ne_zero t 1 (by omega)]
      simp [alffFiltered]
  · intro hlo hmem
    simp only [bandIdx, List.mem_filter, List.mem_range] at hmem
    rcases hmem with ⟨_, hcond⟩
    rw [Bool.and_eq_true, decide_eq_true_eq, decide_eq_true_eq] at hcond
    have h0 : ((0 : ℕ) : ℚ) / ((n : ℚ) * d) = 0 := by
      norm_num
    rw [h0] at hcond
    exact absurd hcond.1 (not_le.mpr hlo)

/-- Witness for alff_band_amended at the concrete spectrum [0, 3, 5],
n = 4, d = 1, band [1/4, 1/2]; the band lower bound is positive so the DC
bin is excluded. -/
theorem alff_band_amended_witness :
    (alffFiltered [0, 3, 5]
        = ((([((0 : ℕ), (0 : ℚ)), (1, 3), (2, 5)]).filter
            fun ia => ia.1 != 0).map Prod.snd).sum) ∧
    (alffUnfiltered [0, 3, 5] 4 1 (1/4) (1/2)
        = claimBandSum [0, 3, 5] 4 1 (1/4) (1/2)
            / ((bandIdx 4 1 (1/4) (1/2)).length : ℚ)) ∧
    ¬ 0 ∈ bandIdx 4 1 (1/4) (1/2) := by
  have h := alff_band_amended [0, 3, 5] 4 1 (1/4) (1/2)
  refine ⟨?_, h.2.1, h.2.2 (by norm_num)⟩
  have henum : ([(0 : ℚ), 3, 5]).enum = [(0, (0 : ℚ)), (1, 3), (2, 5)] := by
    rfl
  rw [← henum]
  exact h.1

/-! ### Higuchi curve length (fractal.py compute_higuchi_fd, lines 14-62)

The code, for scale k and offset m over a series of length n, sets
n_m = int((n - m)/k), sums |ts[m+i*k] - ts[m+(i-1)*k]| for i in
range(1, n_m), divides by k, and multiplies by (n-1)/(n_m*k); lk[k-1] is
the mean of lm over the k offsets, and the returned dimension is the
polyfit slope of log(lk) against log(1/k). -/

/-- Array indexing ts[i] of the embedded series. -/
def tsGet (ts : List ℚ) (i : ℕ) : ℚ := ts.getD i 0

/-- The inner difference sum of compute_higuchi_fd (lines 43-46). -/
def higuchiSum (ts : List ℚ) (k m nm : ℕ) : ℚ :=
  (((List.range nm).drop 1).map fun i =>
    |tsGet ts (m + i * k) - tsGet ts (m + (i - 1) * k)|).sum

/-- One normalized curve length lm[m] of compute_higuchi_fd (lines 38-50):
(ll / k) * (n - 1) / (n_m * k) with n_m = (n - m) / k in integer division. -/
def higuchi_lm (ts : List ℚ) (k m : ℕ) : ℚ :=
  higuchiSum ts k m ((ts.length - m) / k) / (k : ℚ)
    * ((ts.length : ℚ) - 1) / ((((ts.length - m) / k : ℕ) : ℚ) * (k : ℚ))

/-- lk[k-1] = np.mean(lm) over the k offsets (line 53). -/
def higuchi_lk (ts : List ℚ) (k : ℕ) : ℚ :=
  ((List.range k).map fun m => higuchi_lm ts k m).sum / (k : ℚ)

/-- Modelled from the claim (C4): the claimed normalized curve length
L(m,k) = (sum of the successive absolute differences of the whole
subsequence x[m], x[m+k], ...) * (N-1) / (floor((N-m-1)/k)*k) / k. -/
def claim_lm (ts : List ℚ) (k m : ℕ) : ℚ :=
  (((List.range ((ts.length - m - 1) / k + 1)).drop 1).map fun i =>
    |tsGet ts (m + i * k) - tsGet ts (m + (i - 1) * k)|).sum
    * ((ts.length : ℚ) - 1) / ((((ts.length - m - 1) / k : ℕ) : ℚ) * (k : ℚ))
    / (k : ℚ)

/-- Counterexample to claim C4 as stated: for the series [0, 0, 1, 0, 2]
(N = 5) at scale k = 2, offset m = 0, the code normalizes by
n_m = floor(5/2) = 2 and sums only one difference, giving 1/2, while the
claimed formula sums floor((5-1)/2) = 2 differences and gives 1. -/
theorem higuchi_curve_length_counterexample :
    higuchi_lm [0, 0, 1, 0, 2] 2 0 = 1/2 ∧
    claim_lm [0, 0, 1, 0, 2] 2 0 = 1 ∧
    higuchi_lm [0, 0, 1, 0, 2] 2 0 ≠ claim_lm [0, 0, 1, 0, 2] 2 0 := by
  have h1 : higuchi_lm [0, 0, 1, 0, 2] 2 0 = 1/2 := by
    norm_num [higuchi_lm, higuchiSum, tsGet, List.range_succ]
  have h2 : claim_lm [0, 0, 1, 0, 2] 2 0 = 1 := by
    norm_num [claim_lm, tsGet, List.range_succ]
  refine ⟨h1, h2, ?_⟩
  rw [h1, h2]
  norm_num

/-- The subsequence x[m], x[m+k], x[m+2k], ... of the given length. -/
def subseqTS (ts : List ℚ) (m k len : ℕ) : List ℚ :=
  (List.range len).map fun i => tsGet ts (m + i * k)

/-- The successive absolute differences of a list. -/
def absDiffs : List ℚ → List ℚ
  | a :: b :: rest => |b - a| :: absDiffs (b :: rest)
  | _ => []

theorem absDiffs_range' (f : ℕ → ℚ) :
    ∀ len j, (absDiffs ((List.range' j (len + 1)).map f)).sum
      = ((List.range' (j + 1) len).map fun i => |f i - f (i - 1)|).sum := by
  intro len
  induction len with
  | zero => intro j; rfl
  | succ len ih =>
    intro j
    rw [List.range'_succ, List.map_cons]
    rw [show List.range' (j + 1) (len + 1) = (j + 1) :: List.range' (j + 2) len
        from List.range'_succ (j + 1) len 1]
    rw [List.map_cons]
    show (|f (j + 1) - f j| :: absDiffs (f (j + 1) :: (List.range' (j + 2) len).map f)).sum
        = (((j + 1) :: List.range' (j + 2) len).map fun i => |f i - f (i - 1)|).sum
    rw [List.map_cons, List.sum_cons, List.sum_cons]
    have hmap : f (j + 1) :: (List.range' (j + 2) len).map f
        = (List.range' (j + 1) (len + 1)).map f := by
      rw [List.range'_succ, List.map_cons]
    rw [hmap, ih (j + 1)]
    norm_num

/-- The indexed difference sum of the code equals the sum of the successive
absolute differences of the length-n_m subsequence. -/
theorem higuchiSum_eq_absDiffs (ts : List ℚ) (k m nm : ℕ) :
    higuchiSum ts k m nm = (absDiffs (subseqTS ts m k nm)).sum := by
  cases nm with
  | zero => rfl
  | succ len =>
    unfold higuchiSum subseqTS
    rw [List.range_eq_range']
    have hdrop : (List.range' 0 (len + 1)).drop 1 = List.range' 1 len := by
      rw [List.range'_succ]
      rfl
    rw [hdrop]
    have h := absDiffs_range' (fun i => tsGet ts (m + i * k)) len 0
    norm_num at h
    exact h.symm


/-! ### PSD fractal dimension (fractal.py compute_psd_fd, lines 65-100)

The code removes the mean, calls scipy.signal.welch with
nperseg = min(256, len(ts)//4), keeps strictly positive frequencies, and
when more than 5 bins remain fits log10(psd) against log10(freqs) with
np.polyfit degree 1 and returns (5 - beta)/2 for beta the negated slope;
otherwise it returns np.nan.  welch is an external library call and is a
parameter producing (frequency, power) bins. -/

abbrev WelchFn := List ℚ → ℕ → List (ℚ × ℚ)

/-- A real-valued result that may be NaN. -/
inductive RVal
  | nan
  | val (x : ℝ)

/-- Mean removal, fractal.py line 80. -/
def demean (ts : List ℚ) : List ℚ := ts.map fun v => v - tsMean ts

/-- Base-10 logarithm, np.log10. -/
noncomputable def log10R (x : ℝ) : ℝ := Real.log x / Real.log 10

/-- The ordinary least-squares slope np.polyfit(x, y, 1)[0] in closed
form. -/
noncomputable def lsSlope (pts : List (ℝ × ℝ)) : ℝ :=
  ((pts.length : ℝ) * (pts.map fun q => q.1 * q.2).sum
      - (pts.map Prod.fst).sum * (pts.map Prod.snd).sum)
    / ((pts.length : ℝ) * (pts.map fun q => q.1 ^ 2).sum
      - (pts.map Prod.fst).sum ^ 2)

/-- fractal.py lines 80-88: the strictly-positive-frequency Welch bins of
the demeaned series. -/
def psdBins (welch : WelchFn) (ts : List ℚ) : List (ℚ × ℚ) :=
  (welch (demean ts) (min 256 (ts.length / 4))).filter
    fun fp => decide (0 < fp.1)

/-- compute_psd_fd (fractal.py lines 65-100). -/
noncomputable def compute_psd_fd (welch : WelchFn) (ts : List ℚ) : RVal :=
  if 5 < (psdBins welch ts).length then
    RVal.val ((5
        - -(lsSlope ((psdBins welch ts).map
            fun fp => (log10R (fp.1 : ℝ), log10R (fp.2 : ℝ))))) / 2)
  else RVal.nan

/-- Claim C9: the PSD method removes the mean, computes the Welch estimate
at segment length min(256, N/4), keeps only strictly positive frequencies,
and returns (5 - beta)/2 with beta the negated log-log regression slope
when at least 6 positive-frequency bins remain, and NaN otherwise. -/
theorem psd_fd_spec (welch : WelchFn) (ts : List ℚ) :
    (6 ≤ (psdBins welch ts).length →
      compute_psd_fd welch ts
        = RVal.val ((5
            - -(lsSlope ((psdBins welch ts).map
                fun fp => (log10R (fp.1 : ℝ), log10R (fp.2 : ℝ))))) / 2)) ∧
    ((psdBins welch ts).length < 6 →
      compute_psd_fd welch ts = RVal.nan) := by
  constructor
  · intro h
    unfold compute_psd_fd
    rw [if_pos (by omega)]
  · intro h
    unfold compute_psd_fd
    rw [if_neg (by omega)]

/-- An external Welch stub with six positive-frequency bins. -/
def wWelch6 : WelchFn := fun _ _ => [(1, 1), (2, 1), (3, 1), (4, 1), (5, 1), (6, 1)]

/-- An external Welch stub with no bins at all. -/
def wWelch0 : WelchFn := fun _ _ => []

/-- Witness for psd_fd_spec: with six positive bins the value branch is
taken; with no bins the NaN branch is taken. -/
theorem psd_fd_spec_witness :
    compute_psd_fd wWelch6 [0, 1]
        = RVal.val ((5
            - -(lsSlope ((psdBins wWelch6 [0, 1]).map
                fun fp => (log10R (fp.1 : ℝ), log10R (fp.2 : ℝ))))) / 2) ∧
    compute_psd_fd wWelch0 [0, 1] = RVal.nan :=
  ⟨(psd_fd_spec wWelch6 [0, 1]).1 (by norm_num [psdBins, wWelch6]),
   (psd_fd_spec wWelch0 [0, 1]).2 (by norm_num [psdBins, wWelch0])⟩

/-! ### Enum dispatch: Hurst method fallback and the ALFF detrend dispatch

hurst.py lines 71-78: an unknown method string prints a warning and falls
back to nolds.dfa; no error is raised, and the voxel loop then runs
normally.  alff_test.py lines 156-170 dispatch the detrend method inside
the voxel loop; an unknown detrend method raises ValueError there, at the
first masked voxel that passes the variance screen, not before the loop;
with no such voxel the call completes without error. -/

inductive HMethod
  | dfa
  | rs
  deriving DecidableEq, Repr

/-- hurst.py lines 71-78: the method dispatch, with the flag recording the
unknown-method warning print. -/
def selectHurstFunc (method : String) : HMethod × Bool :=
  if method = "dfa" then (.dfa, false)
  else if method = "rs" then (.rs, false)
  else (.dfa, true)

/-- The full hurst.py call: dispatch the method, then run the masked pass
with the selected external estimator. -/
def hurstRun (dfaEst rsEst : VoxEst) (method : String) (v : Vol4)
    (m : Mask3) : Except VolErr PassState :=
  runPass
    (match (selectHurstFunc method).1 with
     | .dfa => dfaEst
     | .rs => rsEst) v m

/-- Counterexample to claim C8 as stated: the call configured with the
invalid estimation method string does not fail at all: hurst.py warns,
falls back to DFA, and the pass completes with an ok result. -/
theorem unknown_enum_counterexample :
    selectHurstFunc "cubic" = (HMethod.dfa, true) ∧
    hurstRun (fun _ => .ok (FVal.val 1)) (fun _ => .ok (FVal.val 2))
        "cubic" cVolStep cMaskOne
      = .ok (passRun (fun _ => .ok (FVal.val 1)) cVolStep cMaskOne) := by
  constructor
  · rfl
  · unfold hurstRun
    have hsel : (selectHurstFunc "cubic").1 = HMethod.dfa := rfl
    rw [hsel]
    unfold runPass
    rw [if_pos (by decide)]

/-! ### The detrend dispatch and the ALFF voxel loop (alff_test.py) -/

/-- The series paired with its time index t = 0..n-1. -/
def withIdx (ts : List ℚ) : List (ℕ × ℚ) := (List.range ts.length).zip ts

/-- Sum of f(t, y) over the indexed series. -/
def sumIdx (ts : List ℚ) (f : ℕ → ℚ → ℚ) : ℚ :=
  ((withIdx ts).map fun iy => f iy.1 iy.2).sum

/-- np.polyfit(t, x, 1): ordinary least-squares (slope, intercept) of the
series against its time index. -/
def linFit (ts : List ℚ) : ℚ × ℚ :=
  let n : ℚ := ts.length
  let st := sumIdx ts fun i _ => (i : ℚ)
  let sy := sumIdx ts fun _ y => y
  let stt := sumIdx ts fun i _ => (i : ℚ) ^ 2
  let sty := sumIdx ts fun i y => (i : ℚ) * y
  let b := (n * sty - st * sy) / (n * stt - st ^ 2)
  (b, (sy - b * st) / n)

/-- scipy.signal.detrend(ts): subtract the least-squares line. -/
def detrendLinear (ts : List ℚ) : List ℚ :=
  (withIdx ts).map fun iy =>
    iy.2 - ((linFit ts).2 + (linFit ts).1 * (iy.1 : ℚ))

/-- scipy.signal.detrend(ts, type="constant"): subtract the mean. -/
def detrendConstant (ts : List ℚ) : List ℚ := ts.map fun y => y - tsMean ts

/-- Sum of t^k over the time indices. -/
def powSum (ts : List ℚ) (k : ℕ) : ℚ := sumIdx ts fun i _ => (i : ℚ) ^ k

/-- Sum of t^k * y over the indexed series. -/
def powMoment (ts : List ℚ) (k : ℕ) : ℚ := sumIdx ts fun i y => (i : ℚ) ^ k * y

/-- A 3x3 determinant, row-major. -/
def det3 (a b c d e f g h i : ℚ) : ℚ :=
  a * (e * i - f * h) - b * (d * i - f * g) + c * (d * h - e * g)

/-- np.polyfit(t, x, 2): the degree-2 least-squares coefficients
(c2, c1, c0), by Cramer's rule on the normal equations. -/
def poly2Coeffs (ts : List ℚ) : ℚ × ℚ × ℚ :=
  let s0 : ℚ := ts.length
  let s1 := powSum ts 1
  let s2 := powSum ts 2
  let s3 := powSum ts 3
  let s4 := powSum ts 4
  let r0 := powMoment ts 0
  let r1 := powMoment ts 1
  let r2 := powMoment ts 2
  let dd := det3 s4 s3 s2 s3 s2 s1 s2 s1 s0
  (det3 r2 s3 s2 r1 s2 s1 r0 s1 s0 / dd,
   det3 s4 r2 s2 s3 r1 s1 s2 r0 s0 / dd,
   det3 s4 s3 r2 s3 s2 r1 s2 s1 r0 / dd)

/-- alff_test.py lines 161-166: subtract the fitted 2nd-order polynomial
trend np.polyval(np.polyfit(t, ts, 2), t). -/
def detrendPoly2 (ts : List ℚ) : List ℚ :=
  (withIdx ts).map fun iy =>
    iy.2 - ((poly2Coeffs ts).1 * (iy.1 : ℚ) ^ 2
      + (poly2Coeffs ts).2.1 * (iy.1 : ℚ) + (poly2Coeffs ts).2.2)

/-- alff_test.py lines 156-170: the detrend dispatch inside the voxel
loop; an unknown method raises ValueError, modelled as Except.error. -/
def detrendTS (method : String) (ts : List ℚ) : Except Unit (List ℚ) :=
  if method = "linear" then .ok (detrendLinear ts)
  else if method = "constant" then .ok (detrendConstant ts)
  else if method = "polynomial" then .ok (detrendPoly2 ts)
  else if method = "none" then .ok ts
  else .error ()

/-- alff_test.py lines 172-179: the window dispatch; the three window
tables (scipy windows.hamming, hann, blackman) are external parameters;
any other name applies no window. -/
def applyWindow (winTab : String → ℕ → List ℚ) (w : String)
    (ts : List ℚ) : List ℚ :=
  if w = "hamming" ∨ w = "hanning" ∨ w = "blackman" then
    ts.zipWith (· * ·) (winTab w ts.length)
  else ts

/-- The alff_test.py per-voxel value (lines 156-188): detrend (which may
raise), window, zero-phase bandpass filter (filt, external
scipy.signal.filtfilt), magnitude spectrum (rfftMag, external
np.abs of np.fft.rfft), then the non-DC sum. -/
def alffVoxelVal (winTab : String → ℕ → List ℚ)
    (filt rfftMag : List ℚ → List ℚ) (dm w : String) (ts : List ℚ) :
    Except Unit ℚ :=
  match detrendTS dm ts with
  | .error u => .error u
  | .ok d => .ok (alffFiltered (rfftMag (filt (applyWindow winTab w d))))

/-- One iteration of the alff_test.py voxel loop (lines 144-188): the
variance screen comes before the detrend dispatch, and a raised ValueError
aborts the whole call. -/
def alffStep (winTab : String → ℕ → List ℚ)
    (filt rfftMag : List ℚ → List ℚ) (dm w : String) (v : Vol4) :
    Except Unit (Idx → ℚ) → Idx → Except Unit (Idx → ℚ)
  | .error u, _ => .error u
  | .ok out, p =>
    if stdLeB (tsAt v p) varEps then .ok out
    else
      match alffVoxelVal winTab filt rfftMag dm w (tsAt v p) with
      | .error u => .error u
      | .ok q => .ok fun r => if r = p then q else out r

/-- The alff_test.py voxel loop over np.argwhere(mask), i.e. the masked
indices in lexicographic order, starting from the zero map. -/
def alffRun (winTab : String → ℕ → List ℚ)
    (filt rfftMag : List ℚ → List ℚ) (dm w : String) (v : Vol4)
    (m : Mask3) : Except Unit (Idx → ℚ) :=
  ((lexIndices v.nx v.ny v.nz).filter (maskAt m)).foldl
    (alffStep winTab filt rfftMag dm w v) (.ok fun _ => 0)

theorem alffFold_error (winTab : String → ℕ → List ℚ)
    (filt rfftMag : List ℚ → List ℚ) (dm w : String) (v : Vol4)
    (l : List Idx) (u : Unit) :
    l.foldl (alffStep winTab filt rfftMag dm w v) (.error u) = .error u := by
  induction l with
  | nil => rfl
  | cons q t ih =>
    rw [List.foldl_cons]
    exact ih

theorem alffFold_all_skip (winTab : String → ℕ → List ℚ)
    (filt rfftMag : List ℚ → List ℚ) (dm w : String) (v : Vol4)
    (l : List Idx) (f : Idx → ℚ)
    (h : ∀ p ∈ l, stdLeB (tsAt v p) varEps = true) :
    l.foldl (alffStep winTab filt rfftMag dm w v) (.ok f) = .ok f := by
  induction l with
  | nil => rfl
  | cons q t ih =>
    rw [List.foldl_cons]
    have hq := h q (List.mem_cons_self q t)
    have hstep : alffStep winTab filt rfftMag dm w v (.ok f) q = .ok f := by
      simp only [alffStep]
      rw [if_pos hq]
    rw [hstep]
    exact ih fun p hp => h p (List.mem_cons_of_mem q hp)

theorem alffFold_raises (winTab : String → ℕ → List ℚ)
    (filt rfftMag : List ℚ → List ℚ) (dm w : String) (v : Vol4)
    (hdet : ∀ ts, detrendTS dm ts = .error ()) (l : List Idx)
    (f : Idx → ℚ) :
    ∀ p ∈ l, stdLeB (tsAt v p) varEps = false →
      l.foldl (alffStep winTab filt rfftMag dm w v) (.ok f) = .error () := by
  induction l generalizing f with
  | nil => simp
  | cons q t ih =>
    intro p hp hstd
    rw [List.foldl_cons]
    have heq : alffStep winTab filt rfftMag dm w v (Except.ok f) q
        = if stdLeB (tsAt v q) varEps = true then Except.ok f
          else
            match alffVoxelVal winTab filt rfftMag dm w (tsAt v q) with
            | .error u => .error u
            | .ok val => .ok fun r => if r = q then val else f r := rfl
    by_cases hq : stdLeB (tsAt v q) varEps = true
    · have hstep : alffStep winTab filt rfftMag dm w v (.ok f) q = .ok f := by
        rw [heq, if_pos hq]
      rw [hstep]
      rcases List.mem_cons.mp hp with hh | hh
      · subst hh
        rw [hq] at hstd
        exact absurd hstd (by simp)
      · exact ih f p hh hstd
    · have hval : alffVoxelVal winTab filt rfftMag dm w (tsAt v q)
          = .error () := by
        unfold alffVoxelVal
        rw [hdet (tsAt v q)]
      have hstep : alffStep winTab filt rfftMag dm w v (.ok f) q
          = .error () := by
        rw [heq, if_neg hq, hval]
      rw [hstep]
      exact alffFold_error winTab filt rfftMag dm w v t ()

/-- Claim C8, amended: an invalid estimation method does not fail the
Hurst call at all: hurst.py warns and falls back to DFA.  An invalid
detrend method in the ALFF call raises only inside the voxel loop, at the
first masked voxel that passes the variance screen: when every masked
voxel is screened out the call completes without error, and when some
masked voxel reaches the detrend dispatch the call fails there. -/
theorem unknown_enum_amended (winTab : String → ℕ → List ℚ)
    (filt rfftMag : List ℚ → List ℚ) (dm w hm3 : String) (v : Vol4)
    (m : Mask3)
    (h1 : dm ≠ "linear") (h2 : dm ≠ "constant") (h3 : dm ≠ "polynomial")
    (h4 : dm ≠ "none") (h5 : hm3 ≠ "dfa") (h6 : hm3 ≠ "rs") :
    selectHurstFunc hm3 = (HMethod.dfa, true) ∧
    ((∀ p ∈ (lexIndices v.nx v.ny v.nz).filter (maskAt m),
        stdLeB (tsAt v p) varEps = true) →
      alffRun winTab filt rfftMag dm w v m = .ok fun _ => 0) ∧
    (∀ p ∈ (lexIndices v.nx v.ny v.nz).filter (maskAt m),
      stdLeB (tsAt v p) varEps = false →
        alffRun winTab filt rfftMag dm w v m = .error ()) := by
  have hdet : ∀ ts, detrendTS dm ts = .error () := by
    intro ts
    unfold detrendTS
    rw [if_neg h1, if_neg h2, if_neg h3, if_neg h4]
  refine ⟨?_, ?_, ?_⟩
  · unfold selectHurstFunc
    rw [if_neg h5, if_neg h6]
  · intro h
    unfold alffRun
    exact alffFold_all_skip winTab filt rfftMag dm w v _ _ h
  · intro p hp hstd
    unfold alffRun
    exact alffFold_raises winTab filt rfftMag dm w v hdet _ _ p hp hstd

/-- Witness for unknown_enum_amended: the unknown method string selects
the DFA fallback with a warning, and the ALFF call with the unknown
detrend method on the 1x1x1 step volume fails inside the loop. -/
theorem unknown_enum_amended_witness :
    selectHurstFunc "cubic" = (HMethod.dfa, true) ∧
    alffRun (fun _ _ => []) id id "cubic" "none" cVolStep cMaskOne
      = .error () := by
  have h := unknown_enum_amended (fun _ _ => []) id id "cubic" "none"
    "cubic" cVolStep cMaskOne (by decide) (by decide) (by decide)
    (by decide) (by decide) (by decide)
  exact ⟨h.1, h.2.2 (0, 0, 0) (by decide)
    (by norm_num [stdLeB, tsAt, cVolStep, tsVar, tsMean, varEps])⟩

/-- compute_higuchi_fd (fractal.py lines 30-62), completing the embedding
of the Higuchi estimator: the arrays of length kmax hold, at index k-1,
lk[k-1] = mean(lm) and y_reg[k-1] = np.log(lk[k-1]); x_reg is
np.log(1.0 / np.array(range(1, kmax+1))); the returned fractal dimension
is np.polyfit(x_reg, y_reg, 1)[0], the least-squares regression slope. -/
noncomputable def compute_higuchi_fd (ts : List ℚ) (kmax : ℕ) : ℝ :=
  lsSlope ((List.range kmax).map fun j =>
    (Real.log (1 / (((j + 1 : ℕ)) : ℝ)),
     Real.log ((higuchi_lk ts (j + 1) : ℚ) : ℝ)))

/-- Claim C4, amended: the code's normalized curve length is
L(m,k) = (sum of the successive absolute differences of the subsequence
x[m], x[m+k], ..., of length n_m = floor((N-m)/k), i.e. n_m - 1
differences) * (N-1) / (n_m*k) / k; L(k) is the mean of L(m,k) over the k
offsets m = 0..k-1; and the fractal dimension returned by the estimator is
the least-squares regression slope of log L(k) against log(1/k) over the
scales k = 1..k_max, as the claim states. -/
theorem higuchi_curve_length_amended (ts : List ℚ) (k m kmax : ℕ) :
    (higuchi_lm ts k m
      = (absDiffs (subseqTS ts m k ((ts.length - m) / k))).sum
          * ((ts.length : ℚ) - 1)
          / ((((ts.length - m) / k : ℕ) : ℚ) * (k : ℚ)) / (k : ℚ)) ∧
    (higuchi_lk ts k
      = ((List.range k).map fun o => higuchi_lm ts k o).sum
          / (((List.range k).map fun o => higuchi_lm ts k o).length : ℚ)) ∧
    (compute_higuchi_fd ts kmax
      = lsSlope ((List.range' 1 kmax).map fun (s : ℕ) =>
          (Real.log (1 / (s : ℝ)),
           Real.log ((higuchi_lk ts s : ℚ) : ℝ)))) := by
  refine ⟨?_, ?_, ?_⟩
  · unfold higuchi_lm
    rw [higuchiSum_eq_absDiffs]
    ring
  · unfold higuchi_lk
    rw [List.length_map, List.length_range]
  · unfold compute_higuchi_fd
    congr 1
    rw [List.range'_eq_map_range, List.map_map]
    apply List.map_congr_left
    intro a _
    rw [Function.comp_apply, Nat.add_comm 1 a]
